import Mathlib

/-!
Shallow embedding of the PDF-to-Markdown Obsidian plugin, src/main.ts.

JavaScript strings are modeled as Lean String and List Char.  The
regular-expression operations of the source are embedded as specialized
executable matchers for the exact patterns occurring there, including the
replacement-pattern expansion that the JavaScript replace method performs
on its replacement argument (the dollar patterns).  File-system and
network side effects are modeled as explicit effect traces, so that
theorems can speak about which writes, uploads and notifications occur.
Byte-level base64 decoding is abstracted: an image write records the
captured base64 body instead of decoded bytes, which no claim inspects.
-/

namespace PdfMistral

/-- Backslash character, written via its code point. -/
def bslash : Char := Char.ofNat 92

/-- Backquote character, written via its code point. -/
def bquote : Char := Char.ofNat 96

/-- Single-quote character, written via its code point. -/
def squote : Char := Char.ofNat 39

/-- ASCII lower casing, the case folding that the i regex flag performs on
the ASCII letters appearing in the source patterns. -/
def asciiLower (c : Char) : Char :=
  if 65 ≤ c.toNat ∧ c.toNat ≤ 90 then Char.ofNat (c.toNat + 32) else c

/-- Case-insensitive equality of character lists under ASCII folding. -/
def ciEqList : List Char → List Char → Bool
  | [], [] => true
  | a :: as, b :: bs => (asciiLower a == asciiLower b) && ciEqList as bs
  | _, _ => false

/-- Line terminators that the JavaScript dot metacharacter does not match. -/
def isLineTerm (c : Char) : Bool :=
  c == Char.ofNat 10 || c == Char.ofNat 13 || c.toNat == 8232 || c.toNat == 8233

/-- Whitespace recognized by the JavaScript trim operation: the
WhiteSpace and LineTerminator productions. -/
def isJsSpace (c : Char) : Bool :=
  [9, 10, 11, 12, 13, 32, 160, 5760, 8232, 8233, 8239, 8287, 12288, 65279].contains c.toNat
    || (8192 ≤ c.toNat && c.toNat ≤ 8202)

/-- JavaScript trim: remove leading and trailing whitespace. -/
def jsTrim (s : String) : String :=
  String.mk (((s.data.dropWhile isJsSpace).reverse.dropWhile isJsSpace).reverse)

/-- JavaScript endsWith on whole strings. -/
def jsEndsWith (s suf : String) : Bool :=
  suf.data.isSuffixOf s.data

/-- JavaScript array join with a separator. -/
def joinSep (sep : String) : List String → String
  | [] => ""
  | [a] => a
  | a :: rest => a ++ sep ++ joinSep sep rest

/-- Index of the first occurrence of pat in s, as the indexOf-style search
underlying string-pattern replace and the regex scan starting points. -/
def findSub (pat : List Char) : List Char → Option Nat
  | [] => if pat.isPrefixOf ([] : List Char) then some 0 else none
  | c :: cs =>
    if pat.isPrefixOf (c :: cs) then some 0
    else (findSub pat cs).map (· + 1)

/-- GetSubstitution of the JavaScript specification: expansion of dollar
patterns in a replacement string.  m is the matched text, pre the part of
the subject before the match, post the part after it.  The source regexes
have no capturing groups used with replace, so dollar-digit sequences are
literal, as in JavaScript. -/
def expandRepl (m pre post : List Char) : List Char → List Char
  | [] => []
  | c :: rest =>
    if c = '$' then
      match rest with
      | [] => [c]
      | d :: rest2 =>
        if d = '$' then '$' :: expandRepl m pre post rest2
        else if d = '&' then m ++ expandRepl m pre post rest2
        else if d = bquote then pre ++ expandRepl m pre post rest2
        else if d = squote then post ++ expandRepl m pre post rest2
        else c :: d :: expandRepl m pre post rest2
    else c :: expandRepl m pre post rest

/-- JavaScript s.replace(pat, repl) with a string pattern: the first
literal occurrence of pat is replaced, after dollar expansion of repl. -/
def jsReplaceFirstStr (s pat repl : String) : String :=
  match findSub pat.data s.data with
  | none => s
  | some i =>
    String.mk (s.data.take i
      ++ expandRepl pat.data (s.data.take i) (s.data.drop (i + pat.data.length)) repl.data
      ++ s.data.drop (i + pat.data.length))

/-- Matcher for the lazy tail of the image-reference regex after the
identifier: the smallest j such that j characters, none a line
terminator, are followed by a closing parenthesis.  Returns the number of
characters consumed including the parenthesis. -/
def findCloseParen : List Char → Option Nat
  | [] => none
  | c :: cs =>
    if c = ')' then some 1
    else if isLineTerm c then none
    else (findCloseParen cs).map (· + 1)

/-- Matcher for the part of the image-reference regex following the
opening parenthesis: a lazy dot gap, the literal identifier (the source
escapes every regex metacharacter in it, so it matches literally), a lazy
dot gap and a closing parenthesis.  Backtracking over the first gap is
faithful: on failure after a candidate identifier position the scan
resumes at the next position.  Returns the number of characters
consumed. -/
def findIdParen (id : List Char) : List Char → Option Nat
  | [] => none
  | c :: cs =>
    if id.isPrefixOf (c :: cs) then
      match findCloseParen ((c :: cs).drop id.length) with
      | some j => some (id.length + j)
      | none => if isLineTerm c then none else (findIdParen id cs).map (· + 1)
    else if isLineTerm c then none else (findIdParen id cs).map (· + 1)

/-- Attempted match of the whole image-reference regex at the head of s:
an exclamation mark and opening bracket, a greedy run of characters other
than a closing bracket, a closing bracket and opening parenthesis, then
the identifier part.  Returns the match length. -/
def imageRefMatchLen (id : List Char) (s : List Char) : Option Nat :=
  match s with
  | '!' :: '[' :: rest =>
    let alt := rest.takeWhile (fun c => c ≠ ']')
    match rest.drop alt.length with
    | ']' :: '(' :: rest3 =>
      match findIdParen id rest3 with
      | some inner => some (2 + alt.length + 2 + inner)
      | none => none
    | _ => none
  | _ => none

/-- Global regex replace scan for the image-reference regex: at each
position try a match; on success emit the dollar-expanded replacement and
continue after the match, otherwise advance one character.  The fuel
argument only bounds the recursion and is always sufficient at the sizes
the wrapper passes, since every step consumes at least one character. -/
def replaceScan (orig id repl : List Char) : Nat → Nat → List Char → List Char
  | 0, _, s => s
  | _ + 1, _, [] => []
  | fuel + 1, pos, c :: cs =>
    match imageRefMatchLen id (c :: cs) with
    | some n =>
      expandRepl ((c :: cs).take n) (orig.take pos) ((c :: cs).drop n) repl
        ++ replaceScan orig id repl fuel (pos + n) ((c :: cs).drop n)
    | none => c :: replaceScan orig id repl fuel (pos + 1) cs

/-- JavaScript md.replace(regex, link) for the image-reference regex built
from the escaped identifier, with the global flag. -/
def jsReplaceImageRefs (md id repl : String) : String :=
  String.mk (replaceScan md.data id.data repl.data (md.data.length + 1) 0 md.data)

/-- Embedding of originalId.replace applied to the trailing jpg or jpeg
regex with the case-insensitive flag and the end anchor: the match, when
it exists, is the unique suffix position whose remainder equals dot-jpg
or dot-jpeg up to ASCII case, and it is removed. -/
def jsStripImgSuffix : List Char → List Char
  | [] => []
  | c :: cs =>
    if c = '.' && (ciEqList cs ['j', 'p', 'g'] || ciEqList cs ['j', 'p', 'e', 'g']) then []
    else c :: jsStripImgSuffix cs

/-- Decidable test that l ends, up to ASCII case, with suf. -/
def endsWithCI (suf : List Char) : List Char → Bool
  | [] => ciEqList [] suf
  | c :: cs => ciEqList (c :: cs) suf || endsWithCI suf cs

/-- Embedding of path.replace applied to the backslash regex with the
global flag and a slash replacement: every backslash becomes a slash. -/
def jsSlashify (s : String) : String :=
  String.mk (s.data.map (fun c => if c = bslash then '/' else c))

/-- Embedded image of an OCR page: pages images id and imageBase64.  An
absent JavaScript payload behaves like the empty string under the falsy
test of the source, so it is modeled as the empty string. -/
structure PageImage where
  id : String
  imageBase64 : String
deriving DecidableEq, Repr

/-- Page of an OCR result: integer index, markdown text and images. -/
structure OcrPage where
  index : Int
  markdown : String
  images : List PageImage
deriving DecidableEq, Repr

/-- Comparison used by the in-place sort of the pages array: the
comparator subtracts indices, which orders by index and, the host sort
being stable, preserves input order on ties. -/
def pageLe (a b : OcrPage) : Prop := a.index ≤ b.index

instance : DecidableRel pageLe := fun a b => Int.decLe a.index b.index

instance : IsTotal OcrPage pageLe := ⟨fun a b => Int.le_total a.index b.index⟩

instance : IsTrans OcrPage pageLe := ⟨fun _ _ _ h1 h2 => Int.le_trans h1 h2⟩

/-- Stable sort of the pages by index, the result and in-place effect of
the sort call of the source. -/
def sortPages (pages : List OcrPage) : List OcrPage :=
  List.insertionSort pageLe pages

/-- One image file written to the vault.  The body is the captured base64
text, standing in for the decoded bytes. -/
structure ImgWrite where
  path : String
  body : String
deriving DecidableEq, Repr

/-- Data-URI prefix required by saveBase64Image. -/
def jpegPrefix : String := "data:image/jpeg;base64,"

/-- Embedding of saveBase64Image: the anchored regex requires the JPEG
data-URI prefix followed by at least one character matched by the dot
metacharacter; on success one binary write occurs, otherwise none. -/
def saveBase64Image (base64 : String) (filePath : String) : List ImgWrite :=
  if jpegPrefix.data.isPrefixOf base64.data then
    let body := (base64.data.drop jpegPrefix.data.length).takeWhile (fun c => ¬ isLineTerm c)
    if body.isEmpty then [] else [⟨filePath, String.mk body⟩]
  else []

/-- Destination path of a materialized image: the images folder, the
document base name, an underscore, the identifier with its trailing jpg
or jpeg suffix stripped, and the fixed jpeg extension. -/
def imageFilePathOf (pdfBaseName finalImagesPath : String) (originalId : String) : String :=
  let trimmedId := String.mk (jsStripImgSuffix originalId.data)
  let imageFileName := pdfBaseName ++ "_" ++ trimmedId ++ ".jpeg"
  finalImagesPath ++ "/" ++ imageFileName

/-- Obsidian embed link to a materialized image: double brackets around
the path with every backslash turned into a slash. -/
def obsidianLinkOf (imageFilePath : String) : String :=
  "![[" ++ jsSlashify imageFilePath ++ "]]"

/-- Per-image step of combineMarkdownWithImages: an empty or
ellipsis-terminated payload is skipped entirely; otherwise the image file
path is derived, the save is attempted, and every image reference whose
target contains the identifier is rewritten to the Obsidian embed link. -/
def processImage (pdfBaseName finalImagesPath : String) (md : String) (img : PageImage) :
    String × List ImgWrite :=
  if img.imageBase64 == "" || jsEndsWith img.imageBase64 "..." then (md, [])
  else
    let imageFilePath := imageFilePathOf pdfBaseName finalImagesPath img.id
    let writes := saveBase64Image img.imageBase64 imageFilePath
    (jsReplaceImageRefs md img.id (obsidianLinkOf imageFilePath), writes)

/-- Per-page step of combineMarkdownWithImages: fold the images over the
page markdown, then append the blank-line separator. -/
def processPage (pdfBaseName finalImagesPath : String) (page : OcrPage) :
    String × List ImgWrite :=
  let r := page.images.foldl
    (fun acc img =>
      let s := processImage pdfBaseName finalImagesPath acc.1 img
      (s.1, acc.2 ++ s.2))
    (page.markdown, ([] : List ImgWrite))
  (r.1 ++ "\n\n", r.2)

/-- Embedding of combineMarkdownWithImages on a present pages array.  The
three components are the combined markdown, the image writes in order,
and the state of the pages array after the call: the source sorts the
array in place, so the caller observes the sorted order afterwards. -/
def combineMarkdownWithImages (pages : List OcrPage) (pdfBaseName finalImagesPath : String) :
    String × List ImgWrite × List OcrPage :=
  let sortedPages := sortPages pages
  let r := sortedPages.foldl
    (fun acc page =>
      let s := processPage pdfBaseName finalImagesPath page
      (acc.1 ++ s.1, acc.2 ++ s.2))
    (("" : String), ([] : List ImgWrite))
  (r.1, r.2, sortedPages)

/-- Combined markdown returned by combineMarkdownWithImages. -/
def combinedMarkdown (pages : List OcrPage) (pdfBaseName finalImagesPath : String) : String :=
  (combineMarkdownWithImages pages pdfBaseName finalImagesPath).1

/-- Image writes performed by combineMarkdownWithImages. -/
def combineWrites (pages : List OcrPage) (pdfBaseName finalImagesPath : String) : List ImgWrite :=
  (combineMarkdownWithImages pages pdfBaseName finalImagesPath).2.1

/-- State of the pages array after combineMarkdownWithImages returns. -/
def pagesAfterCombine (pages : List OcrPage) (pdfBaseName finalImagesPath : String) :
    List OcrPage :=
  (combineMarkdownWithImages pages pdfBaseName finalImagesPath).2.2

/-- Destination markdown path computed by processPDFInternal: the trimmed
markdown folder setting joined with the base name, or the bare file name
when the trimmed setting is empty, the empty string being falsy. -/
def targetMdPath (markdownOutputFolder pdfBaseName : String) : String :=
  let mdFolder := jsTrim markdownOutputFolder
  let targetMdName := pdfBaseName ++ ".md"
  if mdFolder == "" then targetMdName else mdFolder ++ "/" ++ targetMdName

/-- Path cleaning of createFolderIfNotExists: trim, then the global regex
removes one leading and one trailing slash. -/
def cleanFolderPath (folderPath : String) : String :=
  let t := (jsTrim folderPath).data
  let t1 := if t.head? == some '/' then t.tail else t
  let t2 := if t1.getLast? == some '/' then t1.dropLast else t1
  String.mk t2

/-- Settings fields consumed by the ingestion pipeline. -/
structure PluginSettings where
  markdownOutputFolder : String
  imagesOutputFolder : String
  imagesFolderName : String
  mistralApiKey : String
deriving DecidableEq, Repr

/-- Observable side effects of one document ingestion, in program order. -/
inductive IngestEffect where
  | notice (msg : String)
  | upload
  | getSignedUrl
  | ocrProcess
  | createFolder (path : String)
  | imageWrite (w : ImgWrite)
  | createMd (path : String) (content : String)
deriving DecidableEq, Repr

/-- Classifier separating durable or remote side effects from pure
user notifications. -/
def IngestEffect.isSideEffect : IngestEffect → Bool
  | .notice _ => false
  | _ => true

/-- Terminal outcome of one document ingestion. -/
inductive IngestResult where
  | alreadyExists
  | errorThrown (msg : String)
  | completed
deriving DecidableEq, Repr

/-- Outcomes of the three remote calls and of the OCR payload shape: the
pages array may be absent, which combineMarkdownWithImages reports and
turns into an empty document. -/
structure RemoteBehavior where
  upload : Except String Unit
  signedUrl : Except String Unit
  ocr : Except String (Option (List OcrPage))

/-- Folder-creation effects of createFolderIfNotExists: one folder is
created when the cleaned path is nonempty and does not exist yet. -/
def createFolderIfNotExists (adapterExists : String → Bool) (folderPath : String) :
    List IngestEffect :=
  let cleanPath := cleanFolderPath folderPath
  if cleanPath ≠ "" && !adapterExists cleanPath then [.createFolder cleanPath] else []

/-- Images folder path computed by processPDFInternal from the settings:
the folder name defaults when trimmed empty, then is joined under the
trimmed base folder when that is nonempty. -/
def finalImagesPathOf (st : PluginSettings) : String :=
  let baseFolder := jsTrim st.imagesOutputFolder
  let folderName := if jsTrim st.imagesFolderName == "" then "pdf-mistral-images"
    else jsTrim st.imagesFolderName
  if baseFolder ≠ "" && folderName ≠ "" then baseFolder ++ "/" ++ folderName
  else if baseFolder ≠ "" then baseFolder
  else folderName

/-- Embedding of processPDFInternal: guard on the destination path, API
key check, the three remote calls, folder preparation, reconciliation and
the final create, with the effect trace in program order.  vaultHasFile
answers the vault path lookup used by the guard and adapterExists the
adapter existence check used for folders. -/
def processPDFInternal (st : PluginSettings) (vaultHasFile adapterExists : String → Bool)
    (pdfBaseName : String) (remote : RemoteBehavior) : List IngestEffect × IngestResult :=
  let mdFolder := jsTrim st.markdownOutputFolder
  let targetPath := targetMdPath st.markdownOutputFolder pdfBaseName
  if vaultHasFile targetPath then
    ([.notice ("Error: \"" ++ targetPath ++ "\" already exists. Processing stopped.")],
      .alreadyExists)
  else if jsTrim st.mistralApiKey == "" then
    ([], .errorThrown "Mistral API key is not set in settings.")
  else
    match remote.upload with
    | .error e => ([.upload], .errorThrown e)
    | .ok _ =>
      match remote.signedUrl with
      | .error e => ([.upload, .getSignedUrl], .errorThrown e)
      | .ok _ =>
        match remote.ocr with
        | .error e => ([.upload, .getSignedUrl, .ocrProcess], .errorThrown e)
        | .ok pagesOpt =>
          let pre : List IngestEffect := [.upload, .getSignedUrl, .ocrProcess]
          let mdFolderEffs :=
            if mdFolder == "" then [] else createFolderIfNotExists adapterExists mdFolder
          let finalImagesPath := finalImagesPathOf st
          let imgFolderEffs := createFolderIfNotExists adapterExists finalImagesPath
          match pagesOpt with
          | none =>
            (pre ++ mdFolderEffs ++ imgFolderEffs
              ++ [.notice "OCR result does not contain pages.",
                  .createMd targetPath ""], .completed)
          | some pages =>
            let r := combineMarkdownWithImages pages pdfBaseName finalImagesPath
            (pre ++ mdFolderEffs ++ imgFolderEffs
              ++ r.2.1.map .imageWrite ++ [.createMd targetPath r.1], .completed)

/-- Opening token of an HTML comment marker. -/
def openComment : List Char := '<' :: '!' :: '-' :: '-' :: []

/-- Closing token of an HTML comment marker. -/
def closeComment : List Char := '-' :: '-' :: '>' :: []

/-- Global scan of the marker regex: each match starts at the next
occurrence of the opening token and ends at the first occurrence of the
closing token after it; the greedy whitespace borders and the lazy body
make the captured group the inner text, whose trimmed form the source
uses as the key.  Each pair is the full matched text and the trimmed key.
The fuel argument only bounds the recursion and is always sufficient at
the sizes the wrapper passes, every match consuming at least seven
characters. -/
def extractCommentsF : Nat → List Char → List (String × String)
  | 0, _ => []
  | fuel + 1, s =>
    match findSub openComment s with
    | none => []
    | some i =>
      let after := s.drop (i + 4)
      match findSub closeComment after with
      | none => []
      | some j =>
        let middle := after.take j
        (String.mk (openComment ++ middle ++ closeComment), jsTrim (String.mk middle))
          :: extractCommentsF fuel (after.drop (j + 3))

/-- Marker extraction of processPdfAndSummarize via the global matchAll. -/
def extractComments (s : String) : List (String × String) :=
  extractCommentsF (s.data.length + 1) s.data

/-- Configured key and instruction pair of the summary settings. -/
structure SummaryPromptItem where
  keyComment : String
  prompt : String
deriving DecidableEq, Repr

/-- Keys of the prompt map object in insertion order: a repeated key
keeps its first position, later assignments only overwrite the value. -/
def promptMapKeys (items : List SummaryPromptItem) : List String :=
  items.foldl (fun ks it => if ks.contains it.keyComment then ks else ks ++ [it.keyComment]) []

/-- Value lookup in the prompt map object: the last assignment wins. -/
def promptMapGet (items : List SummaryPromptItem) (k : String) : String :=
  (items.foldl (fun acc it => if it.keyComment == k then some it.prompt else acc)
    (none : Option String)).getD ""

/-- Observable effects of one summarization invocation: sequential
generation calls and the single file modification.  The external text
generator is modeled as a function from the prompt to the extracted
summary text or a failure message. -/
inductive SumEffect where
  | genCall (promptText : String)
  | modifyNote (content : String)
deriving DecidableEq, Repr

/-- Bool test for the modification effect. -/
def SumEffect.isModify : SumEffect → Bool
  | .modifyNote _ => true
  | _ => false

/-- Bool test for a generation call effect. -/
def SumEffect.isGen : SumEffect → Bool
  | .genCall _ => true
  | _ => false

/-- Terminal outcome of one summarization invocation. -/
inductive SumOutcome where
  | noMatchingKeys (availableKeys : String)
  | apiError (msg : String)
  | completed (count : Nat)
deriving DecidableEq, Repr

/-- Loop of processPdfAndSummarize over the valid matches: build the
combined prompt, call the generator, and on success substitute the full
comment text in the evolving note content; on failure return at once. -/
def summarizeLoop (srcContent : String) (items : List SummaryPromptItem)
    (gen : String → Except String String) :
    List (String × String) → String → List SumEffect × Except String String
  | [], note => ([], .ok note)
  | (fullComment, key) :: rest, note =>
    let promptText := promptMapGet items key ++ "\n\n---\n\n" ++ srcContent
    match gen promptText with
    | .error e => ([.genCall promptText], .error e)
    | .ok summaryText =>
      let r := summarizeLoop srcContent items gen rest
        (jsReplaceFirstStr note fullComment summaryText)
      (.genCall promptText :: r.1, r.2)

/-- Embedding of processPdfAndSummarize from the point where the note and
source contents are in hand: extract the marker keys, intersect with the
configured keys, process each matching key sequentially and persist the
updated note once at the end. -/
def keysToProcessOf (noteContent : String) (items : List SummaryPromptItem) : List String :=
  (promptMapKeys items).filter
    (fun k => ((extractComments noteContent).map (fun m => m.2)).contains k)

/-- Matches selected for substitution: for each key to process, the first
extracted marker whose trimmed key equals it, paired with the key. -/
def validMatchesOf (noteContent : String) (items : List SummaryPromptItem) :
    List (String × String) :=
  (keysToProcessOf noteContent items).filterMap
    (fun k => ((extractComments noteContent).find? (fun m => m.2 == k)).map
      (fun m => (m.1, k)))

def processPdfAndSummarize (noteContent srcContent : String)
    (items : List SummaryPromptItem) (gen : String → Except String String) :
    List SumEffect × SumOutcome :=
  if (keysToProcessOf noteContent items).isEmpty then
    ([], .noMatchingKeys (joinSep ", " (promptMapKeys items)))
  else
    match summarizeLoop srcContent items gen (validMatchesOf noteContent items) noteContent with
    | (effs, .error e) => (effs, .apiError e)
    | (effs, .ok finalNote) =>
      (effs ++ [.modifyNote finalNote], .completed (validMatchesOf noteContent items).length)

/-- Number of matched keys of one summarization invocation. -/
def matchedKeyCount (noteContent : String) (items : List SummaryPromptItem) : Nat :=
  (keysToProcessOf noteContent items).length

/-- Status of one batch worker: at the loop head, processing one
document, or exited. -/
inductive WStatus where
  | idle
  | busy (doc : String)
  | done
deriving DecidableEq, Repr

/-- Bool test for a busy worker. -/
def WStatus.isBusy : WStatus → Bool
  | .busy _ => true
  | _ => false

/-- State of the batch run of the selection modal: the shared queue, the
two shared counters, the workers, and the ghost list of documents popped
so far, in pop order.  Documents are identified by their path. -/
structure BatchState where
  queue : List String
  success : Nat
  failure : Nat
  workers : List WStatus
  popped : List String
deriving DecidableEq, Repr

/-- Initial batch state: the selected documents in the queue, zeroed
counters, and concurrencyLimit idle workers. -/
def initBatch (docs : List String) (concurrencyLimit : Nat) : BatchState :=
  ⟨docs, 0, 0, List.replicate concurrencyLimit .idle, []⟩

/-- Small-step interleaving semantics of the worker pool.  The length
check and the shift of the source have no suspension point between them,
so they form one atomic pop; awaiting the ingestion is the suspension
point, after which the worker increments exactly one counter, chosen here
nondeterministically to cover every mix of per-document outcomes. -/
inductive BatchStep : BatchState → BatchState → Prop where
  | pop (s : BatchState) (i : Nat) (d : String) (rest : List String) :
      s.queue = d :: rest → s.workers[i]? = some .idle →
      BatchStep s ⟨rest, s.success, s.failure, s.workers.set i (.busy d), s.popped ++ [d]⟩
  | exitLoop (s : BatchState) (i : Nat) :
      s.queue = [] → s.workers[i]? = some .idle →
      BatchStep s ⟨s.queue, s.success, s.failure, s.workers.set i .done, s.popped⟩
  | finishOk (s : BatchState) (i : Nat) (d : String) :
      s.workers[i]? = some (.busy d) →
      BatchStep s ⟨s.queue, s.success + 1, s.failure, s.workers.set i .idle, s.popped⟩
  | finishFail (s : BatchState) (i : Nat) (d : String) :
      s.workers[i]? = some (.busy d) →
      BatchStep s ⟨s.queue, s.success, s.failure + 1, s.workers.set i .idle, s.popped⟩

/-- Reachability under the batch semantics. -/
def BatchReaches : BatchState → BatchState → Prop :=
  Relation.ReflTransGen BatchStep

/-- Inductive invariant of the batch run: the popped documents followed
by the remaining queue are exactly the selected documents, the worker
count is fixed, the two counters plus the in-flight workers account for
every pop, and a worker only exits once the queue is empty. -/
def BatchInv (docs : List String) (limit : Nat) (s : BatchState) : Prop :=
  s.popped ++ s.queue = docs ∧
    s.workers.length = limit ∧
    s.success + s.failure + s.workers.countP WStatus.isBusy = s.popped.length ∧
    (WStatus.done ∈ s.workers → s.queue = [])

/-- Comparison by strictly smaller index, used to identify sorted
permutations when all indices are distinct. -/
def pageLt (a b : OcrPage) : Prop := a.index < b.index

instance : IsAntisymm OcrPage pageLt :=
  ⟨fun _ _ h1 h2 => absurd (Int.lt_trans h1 h2) (Int.lt_irrefl _)⟩

/-- Character lists that are a dot-jpg or dot-jpeg extension up to ASCII
case, the suffixes removed by the identifier normalization. -/
def isJpgJpegSuffixCI (suf : List Char) : Prop :=
  (∃ a b c, suf = ['.', a, b, c] ∧ (a = 'j' ∨ a = 'J') ∧ (b = 'p' ∨ b = 'P') ∧
    (c = 'g' ∨ c = 'G')) ∨
  (∃ a b c d, suf = ['.', a, b, c, d] ∧ (a = 'j' ∨ a = 'J') ∧ (b = 'p' ∨ b = 'P') ∧
    (c = 'e' ∨ c = 'E') ∧ (d = 'g' ∨ d = 'G'))

/-- Case-insensitive list equality forces equal lengths. -/
theorem ciEqList_length {a b : List Char} (h : ciEqList a b = true) : a.length = b.length := by
  induction a generalizing b with
  | nil =>
    cases b with
    | nil => rfl
    | cons y ys => simp [ciEqList] at h
  | cons x xs ih =>
    cases b with
    | nil => simp [ciEqList] at h
    | cons y ys =>
      simp only [ciEqList, Bool.and_eq_true] at h
      simp [ih h.2]

/-- Removing a trailing case-insensitive jpg or jpeg extension: the end
anchor makes the suffix position the unique match of the normalization
regex, so exactly that extension disappears. -/
theorem jsStripImgSuffix_append (stem suf : List Char) (h : isJpgJpegSuffixCI suf) :
    jsStripImgSuffix (stem ++ suf) = stem := by
  induction stem with
  | nil =>
    simp only [List.nil_append]
    rcases h with ⟨a, b, c, rfl, ha, hb, hc⟩ | ⟨a, b, c, d, rfl, ha, hb, hc, hd⟩
    · rcases ha with rfl | rfl <;> rcases hb with rfl | rfl <;> rcases hc with rfl | rfl <;>
        decide
    · rcases ha with rfl | rfl <;> rcases hb with rfl | rfl <;> rcases hc with rfl | rfl <;>
        rcases hd with rfl | rfl <;> decide
  | cons x xs ih =>
    have hlen : suf.length = 4 ∨ suf.length = 5 := by
      rcases h with ⟨a, b, c, hs, _⟩ | ⟨a, b, c, d, hs, _⟩ <;> subst hs <;> simp
    have h3 : ciEqList (xs ++ suf) ['j', 'p', 'g'] = false := by
      cases hcc : ciEqList (xs ++ suf) ['j', 'p', 'g'] with
      | false => rfl
      | true =>
        have hl := ciEqList_length hcc
        simp only [List.length_append] at hl
        simp at hl
        omega
    have h4 : ciEqList (xs ++ suf) ['j', 'p', 'e', 'g'] = false := by
      cases hcc : ciEqList (xs ++ suf) ['j', 'p', 'e', 'g'] with
      | false => rfl
      | true =>
        have hl := ciEqList_length hcc
        simp only [List.length_append] at hl
        simp at hl
        have hxs : xs = [] := by
          have : xs.length = 0 := by omega
          exact List.length_eq_zero.mp this
        subst hxs
        rcases h with ⟨a, b, c, hs, ha, hb, hc⟩ | ⟨a, b, c, d, hs, _⟩
        · subst hs
          rcases ha with rfl | rfl <;> rcases hb with rfl | rfl <;>
            rcases hc with rfl | rfl <;> exact absurd hcc (by decide)
        · subst hs
          simp at hl
    simp [List.cons_append, jsStripImgSuffix, h3, h4, ih]

/-- An identifier without a trailing case-insensitive jpg or jpeg
extension passes through the normalization unchanged. -/
theorem jsStripImgSuffix_of_no_suffix (id2 : List Char)
    (h1 : endsWithCI ['.', 'j', 'p', 'g'] id2 = false)
    (h2 : endsWithCI ['.', 'j', 'p', 'e', 'g'] id2 = false) :
    jsStripImgSuffix id2 = id2 := by
  induction id2 with
  | nil => rfl
  | cons c cs ih =>
    simp only [endsWithCI, Bool.or_eq_false_iff] at h1 h2
    by_cases hc : c = '.'
    · subst hc
      have e1 : ciEqList cs ['j', 'p', 'g'] = false := by
        have := h1.1
        simpa [ciEqList] using this
      have e2 : ciEqList cs ['j', 'p', 'e', 'g'] = false := by
        have := h2.1
        simpa [ciEqList] using this
      simp [jsStripImgSuffix, e1, e2, ih h1.2 h2.2]
    · simp [jsStripImgSuffix, hc, ih h1.2 h2.2]

/-- Mapping backslashes to slashes leaves no backslash behind. -/
theorem slashmap_no_backslash (l : List Char) :
    ((l.map (fun c => if c = bslash then '/' else c)).contains bslash) = false := by
  rw [Bool.eq_false_iff]
  intro hc
  rcases List.contains_iff_exists_mem_beq.mp hc with ⟨b, hb, hbeq⟩
  have hb2 : b = bslash := (eq_of_beq hbeq).symm
  subst hb2
  rcases List.mem_map.mp hb with ⟨c, _, hfc⟩
  by_cases h : c = bslash
  · rw [if_pos h] at hfc
    exact absurd hfc (by decide)
  · rw [if_neg h] at hfc
    exact h hfc

/-- The slash normalization of a path contains no backslash. -/
theorem jsSlashify_no_backslash (s : String) :
    (jsSlashify s).data.contains bslash = false := by
  unfold jsSlashify
  exact slashmap_no_backslash s.data

/-- C1: when the computed destination markdown path already holds an
existing file, processPDFInternal stops with the AlreadyExists outcome
and performs no side effect at all: no upload, no image write, no folder
creation and no markdown create, only a user notification. -/
theorem c1_already_exists_guard (st : PluginSettings)
    (vaultHasFile adapterExists : String → Bool) (pdfBaseName : String)
    (remote : RemoteBehavior)
    (h : vaultHasFile (targetMdPath st.markdownOutputFolder pdfBaseName) = true) :
    (processPDFInternal st vaultHasFile adapterExists pdfBaseName remote).2 =
        IngestResult.alreadyExists ∧
      (processPDFInternal st vaultHasFile adapterExists pdfBaseName remote).1.all
        (fun e => !e.isSideEffect) = true := by
  unfold processPDFInternal
  simp [h, IngestEffect.isSideEffect]

/-- Witness for C1 at a concrete vault containing the destination file. -/
theorem c1_witness :
    ((fun p => p == "doc.md") (targetMdPath "" "doc") = true) ∧
      ((processPDFInternal ⟨"", "", "", "key"⟩ (fun p => p == "doc.md") (fun _ => false)
          "doc" ⟨.ok (), .ok (), .ok none⟩).2 = IngestResult.alreadyExists ∧
        (processPDFInternal ⟨"", "", "", "key"⟩ (fun p => p == "doc.md") (fun _ => false)
          "doc" ⟨.ok (), .ok (), .ok none⟩).1.all (fun e => !e.isSideEffect) = true) :=
  ⟨by decide,
    c1_already_exists_guard ⟨"", "", "", "key"⟩ (fun p => p == "doc.md") (fun _ => false)
      "doc" ⟨.ok (), .ok (), .ok none⟩ (by decide)⟩

/-- C3 counterexample: two pages sharing index zero; swapping the input
order permutes the input but changes the reconciled markdown, because the
stable sort keeps tied pages in input order. -/
theorem c3_counterexample :
    List.Perm [(⟨0, "A", []⟩ : OcrPage), ⟨0, "B", []⟩] [⟨0, "B", []⟩, ⟨0, "A", []⟩] ∧
      combinedMarkdown [⟨0, "A", []⟩, ⟨0, "B", []⟩] "doc" "imgs" ≠
        combinedMarkdown [⟨0, "B", []⟩, ⟨0, "A", []⟩] "doc" "imgs" := by
  constructor
  · decide
  · decide

/-- C3 amended: reconciled markdown is invariant under permutation of the
input page order whenever all page indices are distinct; pages are always
emitted sorted by index ascending, stably on ties. -/
theorem c3_order_invariance_distinct_indices (l1 l2 : List OcrPage)
    (pdfBaseName finalImagesPath : String) (hp : List.Perm l1 l2)
    (hn : (l1.map OcrPage.index).Nodup) :
    combinedMarkdown l1 pdfBaseName finalImagesPath =
      combinedMarkdown l2 pdfBaseName finalImagesPath := by
  have hs1 : List.Sorted pageLe (sortPages l1) := List.sorted_insertionSort pageLe l1
  have hs2 : List.Sorted pageLe (sortPages l2) := List.sorted_insertionSort pageLe l2
  have hperm : List.Perm (sortPages l1) (sortPages l2) :=
    ((List.perm_insertionSort pageLe l1).trans hp).trans
      (List.perm_insertionSort pageLe l2).symm
  have hn1 : ((sortPages l1).map OcrPage.index).Nodup :=
    (((List.perm_insertionSort pageLe l1).map OcrPage.index).nodup_iff).mpr hn
  have hpw : List.Pairwise (fun a b : OcrPage => a.index ≠ b.index) (sortPages l1) :=
    List.pairwise_map.mp hn1
  have hlt1 : List.Sorted pageLt (sortPages l1) := by
    refine (hs1.and hpw).imp ?_
    intro a b hab
    exact lt_of_le_of_ne hab.1 hab.2
  have hlt2 : List.Sorted pageLt (sortPages l2) := by
    have hn2 : ((sortPages l2).map OcrPage.index).Nodup :=
      ((hperm.map OcrPage.index).nodup_iff).mp hn1
    have hpw2 : List.Pairwise (fun a b : OcrPage => a.index ≠ b.index) (sortPages l2) :=
      List.pairwise_map.mp hn2
    refine (hs2.and hpw2).imp ?_
    intro a b hab
    exact lt_of_le_of_ne hab.1 hab.2
  have heq : sortPages l1 = sortPages l2 := List.eq_of_perm_of_sorted hperm hlt1 hlt2
  simp only [combinedMarkdown, combineMarkdownWithImages]
  rw [heq]

/-- Witness for C3 amended at a concrete permutation with distinct
indices. -/
theorem c3_order_invariance_witness :
    (List.Perm [(⟨1, "B", []⟩ : OcrPage), ⟨0, "A", []⟩] [⟨0, "A", []⟩, ⟨1, "B", []⟩] ∧
        (([(⟨1, "B", []⟩ : OcrPage), ⟨0, "A", []⟩]).map OcrPage.index).Nodup) ∧
      combinedMarkdown [⟨1, "B", []⟩, ⟨0, "A", []⟩] "doc" "imgs" =
        combinedMarkdown [⟨0, "A", []⟩, ⟨1, "B", []⟩] "doc" "imgs" :=
  ⟨⟨by decide, by decide⟩,
    c3_order_invariance_distinct_indices _ _ "doc" "imgs" (by decide) (by decide)⟩

/-- C4 counterexample: an image payload with a PNG data-URI prefix is
rejected by the materializer, so zero files are written, yet the page
markdown is still rewritten: the original reference is not left in
place, contradicting the claim. -/
theorem c4_counterexample :
    combineWrites [⟨0, "![img](img-0.jpeg)", [⟨"img-0.jpeg", "data:image/png;base64,AAAA"⟩]⟩]
        "doc" "imgs" = [] ∧
      combinedMarkdown
          [⟨0, "![img](img-0.jpeg)", [⟨"img-0.jpeg", "data:image/png;base64,AAAA"⟩]⟩]
          "doc" "imgs" = "![[imgs/doc_img-0.jpeg]]\n\n" ∧
      "![[imgs/doc_img-0.jpeg]]\n\n" ≠ "![img](img-0.jpeg)\n\n" := by
  refine ⟨by decide, by decide, by decide⟩

/-- C4 amended: an empty or ellipsis-terminated payload is skipped
entirely, with zero writes and the markdown untouched; a payload lacking
the JPEG data-URI prefix produces zero writes and does not abort the
document, but the image reference is still rewritten to the would-be
materialized path. -/
theorem c4_bad_payload_behavior (pdfBaseName finalImagesPath md md2 : String)
    (img img2 : PageImage)
    (hskip : img.imageBase64 = "" ∨ jsEndsWith img.imageBase64 "..." = true)
    (hpre : jpegPrefix.data.isPrefixOf img2.imageBase64.data = false) :
    processImage pdfBaseName finalImagesPath md img = (md, []) ∧
      (processImage pdfBaseName finalImagesPath md2 img2).2 = [] := by
  constructor
  · unfold processImage
    rcases hskip with h | h
    · simp [h]
    · simp [h]
  · unfold processImage
    split
    · rfl
    · simp [saveBase64Image, hpre]

/-- Witness for C4 amended at a concrete skipped payload. -/
theorem c4_bad_payload_witness :
    (((⟨"img-0.jpeg", ""⟩ : PageImage).imageBase64 = "" ∨
        jsEndsWith (⟨"img-0.jpeg", ""⟩ : PageImage).imageBase64 "..." = true) ∧
        jpegPrefix.data.isPrefixOf
          (⟨"img-0.jpeg", "data:image/png;base64,AAAA"⟩ : PageImage).imageBase64.data
          = false) ∧
      (processImage "doc" "imgs" "![img](img-0.jpeg)" ⟨"img-0.jpeg", ""⟩ =
          ("![img](img-0.jpeg)", []) ∧
        (processImage "doc" "imgs" "![img](img-0.jpeg)"
          ⟨"img-0.jpeg", "data:image/png;base64,AAAA"⟩).2 = []) :=
  ⟨⟨Or.inl rfl, by decide⟩,
    c4_bad_payload_behavior "doc" "imgs" "![img](img-0.jpeg)" "![img](img-0.jpeg)"
      ⟨"img-0.jpeg", ""⟩ ⟨"img-0.jpeg", "data:image/png;base64,AAAA"⟩
      (Or.inl rfl) (by decide)⟩

/-- C9 counterexample: the pages array passed to the reconciler is not
unchanged; the in-place sort reorders it, as observed on two pages
arriving in descending index order. -/
theorem c9_counterexample :
    pagesAfterCombine [(⟨1, "B", []⟩ : OcrPage), ⟨0, "A", []⟩] "doc" "imgs" ≠
      [⟨1, "B", []⟩, ⟨0, "A", []⟩] := by
  decide

/-- C9 amended: the reconciler does mutate the input pages array by
sorting it in place, but only its order changes: afterwards the array is
a permutation of the input holding exactly the same page values, sorted
by index. -/
theorem c9_pages_sorted_in_place (pages : List OcrPage) (pdfBaseName finalImagesPath : String) :
    List.Perm (pagesAfterCombine pages pdfBaseName finalImagesPath) pages ∧
      List.Sorted pageLe (pagesAfterCombine pages pdfBaseName finalImagesPath) := by
  constructor
  · exact List.perm_insertionSort pageLe pages
  · exact List.sorted_insertionSort pageLe pages

/-- C6: the file-naming contract.  The destination markdown path is the
trimmed markdown folder joined with the base name and md extension, or
the bare name when the trimmed folder setting is empty; the materialized
image path is the images folder, a slash, the base name, an underscore,
the placeholder id with one trailing jpg or jpeg extension removed case
insensitively, and the fixed jpeg extension; and the rewritten reference
is the double-bracket embed of the slash-normalized path, which contains
no backslash. -/
theorem c6_naming_contract (mdFolderSetting baseName imagesFolder p : String)
    (stem suf id2 : List Char) (hsuf : isJpgJpegSuffixCI suf)
    (h1 : endsWithCI ['.', 'j', 'p', 'g'] id2 = false)
    (h2 : endsWithCI ['.', 'j', 'p', 'e', 'g'] id2 = false) :
    targetMdPath mdFolderSetting baseName =
        (if jsTrim mdFolderSetting == "" then baseName ++ ".md"
          else jsTrim mdFolderSetting ++ "/" ++ baseName ++ ".md") ∧
      imageFilePathOf baseName imagesFolder (String.mk (stem ++ suf)) =
        imagesFolder ++ "/" ++ baseName ++ "_" ++ String.mk stem ++ ".jpeg" ∧
      imageFilePathOf baseName imagesFolder (String.mk id2) =
        imagesFolder ++ "/" ++ baseName ++ "_" ++ String.mk id2 ++ ".jpeg" ∧
      obsidianLinkOf p = "![[" ++ jsSlashify p ++ "]]" ∧
      (jsSlashify p).data.contains bslash = false := by
  refine ⟨?_, ?_, ?_, rfl, jsSlashify_no_backslash p⟩
  · cases hmd : (jsTrim mdFolderSetting == "") with
    | true =>
      simp [targetMdPath, hmd]
    | false =>
      apply String.ext
      simp [targetMdPath, hmd, String.data_append]
  · apply String.ext
    simp [imageFilePathOf, jsStripImgSuffix_append stem suf hsuf, String.data_append]
  · apply String.ext
    simp [imageFilePathOf, jsStripImgSuffix_of_no_suffix id2 h1 h2, String.data_append]

/-- Containment distributes over list append. -/
theorem contains_append_eq (l1 l2 : List Char) (a : Char) :
    (l1 ++ l2).contains a = (l1.contains a || l2.contains a) := by
  simp [List.contains_eq_any_beq, List.any_append]

/-- A replacement string without a dollar character is inserted verbatim
by the dollar expansion. -/
theorem expandRepl_no_dollar (m pre post repl : List Char)
    (h : repl.contains '$' = false) :
    expandRepl m pre post repl = repl := by
  induction repl with
  | nil => rfl
  | cons c rest ih =>
    rw [List.contains_cons, Bool.or_eq_false_iff] at h
    have hc : c ≠ '$' := by
      intro hcc
      subst hcc
      simp at h
    cases rest with
    | nil => simp [expandRepl, hc]
    | cons d rest2 =>
      have hr := ih h.2
      simp only [expandRepl, if_neg hc]
      rw [hr]

/-- A character list without backslashes is unchanged by the slash map. -/
theorem map_slash_of_no_backslash (l : List Char) (h : l.contains bslash = false) :
    l.map (fun c => if c = bslash then '/' else c) = l := by
  induction l with
  | nil => rfl
  | cons c cs ih =>
    rw [List.contains_cons, Bool.or_eq_false_iff] at h
    have hc : c ≠ bslash := by
      intro hcc
      subst hcc
      simp at h
    simp [hc, ih h.2]

/-- Per-image step on a payload that is neither empty nor a truncation
placeholder: the save is attempted at the derived path and the markdown
references are rewritten to the embed link. -/
theorem processImage_not_skipped (pdfBaseName finalImagesPath md : String) (img : PageImage)
    (h : (img.imageBase64 == "" || jsEndsWith img.imageBase64 "...") = false) :
    processImage pdfBaseName finalImagesPath md img =
      (jsReplaceImageRefs md img.id
          (obsidianLinkOf (imageFilePathOf pdfBaseName finalImagesPath img.id)),
        saveBase64Image img.imageBase64 (imageFilePathOf pdfBaseName finalImagesPath img.id)) := by
  unfold processImage
  rw [h]
  simp

/-- The embed link of the scenario image under a backslash-free images
folder is the folder joined to the derived file name. -/
theorem scenario_link (f : String) (hnb : f.data.contains bslash = false) :
    obsidianLinkOf (imageFilePathOf "doc" f "img-0.jpeg") =
      "![[" ++ (f ++ "/doc_img-0.jpeg") ++ "]]" := by
  unfold obsidianLinkOf imageFilePathOf
  apply String.ext
  simp only [jsSlashify, String.data_append, List.map_append]
  rw [map_slash_of_no_backslash f.data hnb]
  simp [map_slash_of_no_backslash, String.data_append]
  decide

/-- Rewriting the scenario page markdown: the single image reference is
replaced by the dollar-free link, verbatim. -/
theorem scenario_rewrite (link : String) (hl : link.data.contains '$' = false) :
    jsReplaceImageRefs "A ![img](img-0.jpeg)" "img-0.jpeg" link = "A " ++ link := by
  apply String.ext
  show (String.mk (replaceScan ("A ![img](img-0.jpeg)".data) ("img-0.jpeg".data) link.data
      (("A ![img](img-0.jpeg)".data).length + 1) 0 ("A ![img](img-0.jpeg)".data))).data
    = ("A " ++ link).data
  calc (String.mk (replaceScan ("A ![img](img-0.jpeg)".data) ("img-0.jpeg".data) link.data
        (("A ![img](img-0.jpeg)".data).length + 1) 0 ("A ![img](img-0.jpeg)".data))).data
      = 'A' :: ' ' :: (expandRepl ("![img](img-0.jpeg)".data) ("A ".data) []
          link.data ++ []) := rfl
    _ = 'A' :: ' ' :: link.data := by
        rw [expandRepl_no_dollar _ _ _ _ hl, List.append_nil]
    _ = ("A " ++ link).data := by
        simp [String.data_append]

/-- Witness for C6 at a concrete folder, base name, identifier with a
mixed-case jpeg extension, and extensionless identifier. -/
theorem c6_naming_witness :
    (isJpgJpegSuffixCI ['.', 'J', 'p', 'e', 'G'] ∧
        endsWithCI ['.', 'j', 'p', 'g'] ("fig1".data) = false ∧
        endsWithCI ['.', 'j', 'p', 'e', 'g'] ("fig1".data) = false) ∧
      (targetMdPath " md " "doc" =
          (if jsTrim " md " == "" then "doc" ++ ".md"
            else jsTrim " md " ++ "/" ++ "doc" ++ ".md") ∧
        imageFilePathOf "doc" "imgs" (String.mk ("img-0".data ++ ['.', 'J', 'p', 'e', 'G'])) =
          "imgs" ++ "/" ++ "doc" ++ "_" ++ String.mk ("img-0".data) ++ ".jpeg" ∧
        imageFilePathOf "doc" "imgs" (String.mk ("fig1".data)) =
          "imgs" ++ "/" ++ "doc" ++ "_" ++ String.mk ("fig1".data) ++ ".jpeg" ∧
        obsidianLinkOf "a\\b" = "![[" ++ jsSlashify "a\\b" ++ "]]" ∧
        (jsSlashify "a\\b").data.contains bslash = false) :=
  ⟨⟨Or.inr ⟨'J', 'p', 'e', 'G', rfl, Or.inr rfl, Or.inl rfl, Or.inl rfl, Or.inr rfl⟩,
      by decide, by decide⟩,
    c6_naming_contract " md " "doc" "imgs" "a\\b" ("img-0".data) ['.', 'J', 'p', 'e', 'G']
      ("fig1".data)
      (Or.inr ⟨'J', 'p', 'e', 'G', rfl, Or.inr rfl, Or.inl rfl, Or.inl rfl, Or.inr rfl⟩)
      (by decide) (by decide)⟩

/-- C2 counterexample: with the images folder configured as a dollar and
ampersand, a replacement pattern of the JavaScript replace method, the
reconciled output of the scenario is not the claimed string: the dollar
pattern expands to the matched reference text inside the link. -/
theorem c2_counterexample :
    combinedMarkdown
        [⟨1, "B", []⟩,
          ⟨0, "A ![img](img-0.jpeg)", [⟨"img-0.jpeg", "data:image/jpeg;base64,AAAA"⟩]⟩]
        "doc" "$&" ≠ "A ![[$&/doc_img-0.jpeg]]\n\nB\n\n" := by
  decide

/-- C2 amended: in the two-page scenario with indices one and zero, page
zero holding the single image reference and a valid JPEG data-URI
payload, reconciliation returns exactly the claimed string, provided the
configured images folder contains no dollar character and no backslash;
a dollar replacement pattern or a backslash in the folder alters the
emitted link. -/
theorem c2_scenario_output (f payload : String)
    (hnd : f.data.contains '$' = false)
    (hnb : f.data.contains bslash = false)
    (hpre : jpegPrefix.data.isPrefixOf payload.data = true)
    (hdots : jsEndsWith payload "..." = false) :
    combinedMarkdown
        [⟨1, "B", []⟩, ⟨0, "A ![img](img-0.jpeg)", [⟨"img-0.jpeg", payload⟩]⟩]
        "doc" f = "A ![[" ++ f ++ "/doc_img-0.jpeg]]\n\nB\n\n" := by
  have hne : (payload == "") = false := by
    cases hpp : (payload == "") with
    | false => rfl
    | true =>
      have hz : payload = "" := eq_of_beq hpp
      subst hz
      exact absurd hpre (by decide)
  have hcond : (payload == "" || jsEndsWith payload "...") = false := by
    rw [hne, hdots]
    rfl
  have hlinknd : ("![[" ++ (f ++ "/doc_img-0.jpeg") ++ "]]").data.contains '$' = false := by
    simp only [String.data_append, contains_append_eq, hnd]
    decide
  unfold combinedMarkdown combineMarkdownWithImages
  have hsort : sortPages
      [(⟨1, "B", []⟩ : OcrPage), ⟨0, "A ![img](img-0.jpeg)", [⟨"img-0.jpeg", payload⟩]⟩] =
      [⟨0, "A ![img](img-0.jpeg)", [⟨"img-0.jpeg", payload⟩]⟩, ⟨1, "B", []⟩] := rfl
  rw [hsort]
  simp only [List.foldl_cons, List.foldl_nil]
  unfold processPage
  simp only [List.foldl_cons, List.foldl_nil]
  rw [processImage_not_skipped "doc" f "A ![img](img-0.jpeg)" ⟨"img-0.jpeg", payload⟩ hcond]
  rw [scenario_link f hnb]
  rw [scenario_rewrite _ hlinknd]
  apply String.ext
  simp [String.data_append]

/-- Witness for C2 amended at a concrete dollar-free folder and a
concrete valid payload. -/
theorem c2_scenario_witness :
    (("imgs".data.contains '$' = false) ∧ ("imgs".data.contains bslash = false) ∧
        jpegPrefix.data.isPrefixOf ("data:image/jpeg;base64,AAAA".data) = true ∧
        jsEndsWith "data:image/jpeg;base64,AAAA" "..." = false) ∧
      combinedMarkdown
        [⟨1, "B", []⟩,
          ⟨0, "A ![img](img-0.jpeg)", [⟨"img-0.jpeg", "data:image/jpeg;base64,AAAA"⟩]⟩]
        "doc" "imgs" = "A ![[" ++ "imgs" ++ "/doc_img-0.jpeg]]\n\nB\n\n" :=
  ⟨⟨by decide, by decide, by decide, by decide⟩,
    c2_scenario_output "imgs" "data:image/jpeg;base64,AAAA"
      (by decide) (by decide) (by decide) (by decide)⟩

/-- C10: semantics of the comment substitution.  The first literal
occurrence of the marker text is replaced; the inserted text equals the
generated text whenever it contains no dollar character; and generated
text consisting of the dollar-ampersand pattern is not inserted verbatim:
it expands to the matched marker text itself. -/
theorem c10_replace_first_occurrence (pre pat post repl : String)
    (hfirst : findSub pat.data (pre.data ++ pat.data ++ post.data) = some pre.data.length)
    (hnd : repl.data.contains '$' = false) :
    jsReplaceFirstStr (String.mk (pre.data ++ pat.data ++ post.data)) pat repl =
        String.mk (pre.data ++ (repl.data ++ post.data)) ∧
      jsReplaceFirstStr "A <!-- k --> B" "<!-- k -->" "$&" = "A <!-- k --> B" ∧
      jsReplaceFirstStr "A <!-- k --> B" "<!-- k -->" "$&" ≠
        String.mk ("A ".data ++ ("$&".data ++ " B".data)) := by
  refine ⟨?_, by decide, by decide⟩
  unfold jsReplaceFirstStr
  rw [show (String.mk (pre.data ++ pat.data ++ post.data)).data =
    pre.data ++ pat.data ++ post.data from rfl, hfirst]
  dsimp only
  have htake : (pre.data ++ pat.data ++ post.data).take pre.data.length = pre.data := by
    rw [List.append_assoc]
    exact List.take_left pre.data _
  have hdrop : (pre.data ++ pat.data ++ post.data).drop (pre.data.length + pat.data.length) =
      post.data := by
    rw [show pre.data.length + pat.data.length = (pre.data ++ pat.data).length by
      simp [List.length_append]]
    exact List.drop_left _ _
  rw [htake, hdrop, expandRepl_no_dollar _ _ _ _ hnd, List.append_assoc]

/-- Witness for C10 at a concrete subject, marker and dollar-free
replacement. -/
theorem c10_witness :
    (findSub ("ab".data) ("x ".data ++ "ab".data ++ " y".data) = some ("x ".data).length ∧
        ("Z".data).contains '$' = false) ∧
      (jsReplaceFirstStr (String.mk ("x ".data ++ "ab".data ++ " y".data)) "ab" "Z" =
          String.mk ("x ".data ++ ("Z".data ++ " y".data)) ∧
        jsReplaceFirstStr "A <!-- k --> B" "<!-- k -->" "$&" = "A <!-- k --> B" ∧
        jsReplaceFirstStr "A <!-- k --> B" "<!-- k -->" "$&" ≠
          String.mk ("A ".data ++ ("$&".data ++ " B".data))) :=
  ⟨⟨by decide, by decide⟩,
    c10_replace_first_occurrence "x " "ab" " y" "Z" (by decide) (by decide)⟩

/-- C8: when no extracted marker key is configured, summarization stops
with the NoMatchingKeys outcome carrying the joined configured key list,
and performs no generation call and no file modification. -/
theorem c8_no_matching_keys (noteContent srcContent : String)
    (items : List SummaryPromptItem) (gen : String → Except String String)
    (hdisj : ∀ k ∈ promptMapKeys items,
      (((extractComments noteContent).map (fun m => m.2)).contains k) = false) :
    processPdfAndSummarize noteContent srcContent items gen =
      ([], SumOutcome.noMatchingKeys (joinSep ", " (promptMapKeys items))) := by
  have hfil : keysToProcessOf noteContent items = [] := by
    unfold keysToProcessOf
    rw [List.filter_eq_nil_iff]
    intro a ha
    simp only [hdisj a ha]
    exact Bool.false_ne_true
  unfold processPdfAndSummarize
  rw [hfil]
  rfl

/-- Witness for C8 at a concrete note whose only marker key is not
configured. -/
theorem c8_witness :
    (∀ k ∈ promptMapKeys [⟨"k", "p"⟩],
        (((extractComments "<!-- j -->").map (fun m => m.2)).contains k) = false) ∧
      processPdfAndSummarize "<!-- j -->" "src" [⟨"k", "p"⟩] (fun _ => .ok "S") =
        ([], SumOutcome.noMatchingKeys (joinSep ", " (promptMapKeys [⟨"k", "p"⟩]))) :=
  ⟨by decide, c8_no_matching_keys "<!-- j -->" "src" [⟨"k", "p"⟩] (fun _ => .ok "S")
    (by decide)⟩

/-- A filterMap whose function succeeds on every element keeps the
length. -/
theorem length_filterMap_of_isSome {α β : Type} (f : α → Option β) (l : List α)
    (h : ∀ a ∈ l, (f a).isSome = true) : (l.filterMap f).length = l.length := by
  induction l with
  | nil => rfl
  | cons a as ih =>
    cases hfa : f a with
    | none =>
      have := h a (List.mem_cons_self a as)
      rw [hfa] at this
      simp at this
    | some b =>
      simp [List.filterMap_cons, hfa,
        ih (fun x hx => h x (List.mem_cons_of_mem a hx))]

/-- Every key selected for processing occurs among the extracted markers,
so the match lookup of the source always succeeds and the number of valid
matches equals the number of matched keys. -/
theorem validMatchesOf_length (noteContent : String) (items : List SummaryPromptItem) :
    (validMatchesOf noteContent items).length = matchedKeyCount noteContent items := by
  unfold validMatchesOf matchedKeyCount
  apply length_filterMap_of_isSome
  intro k hk
  have hmem := List.mem_filter.mp hk
  rcases List.contains_iff_exists_mem_beq.mp hmem.2 with ⟨b, hb, hbeq⟩
  have hkb : k = b := eq_of_beq hbeq
  rcases List.mem_map.mp hb with ⟨m, hm, hmb⟩
  cases hf : (extractComments noteContent).find? (fun m2 => m2.2 == k) with
  | none =>
    have hnone := List.find?_eq_none.mp hf m hm
    have : (m.2 == k) = true := by
      rw [hmb, hkb]
      exact beq_self_eq_true b
    exact absurd this (by simpa using hnone)
  | some m2 => rfl

/-- Invariants of the summarization loop: every emitted effect is a
generation call, at most one call per remaining match is issued, and the
loop succeeds exactly when it issued one call per match. -/
theorem summarizeLoop_spec (srcContent : String) (items : List SummaryPromptItem)
    (gen : String → Except String String) (ms : List (String × String)) (note : String) :
    ((summarizeLoop srcContent items gen ms note).1.all SumEffect.isGen = true) ∧
      ((summarizeLoop srcContent items gen ms note).1.length ≤ ms.length) ∧
      (∀ r, (summarizeLoop srcContent items gen ms note).2 = Except.ok r →
        (summarizeLoop srcContent items gen ms note).1.length = ms.length) := by
  induction ms generalizing note with
  | nil => exact ⟨rfl, by simp [summarizeLoop], fun r _ => rfl⟩
  | cons m rest ih =>
    obtain ⟨f0, k0⟩ := m
    simp only [summarizeLoop]
    cases hg : gen (promptMapGet items k0 ++ "\n\n---\n\n" ++ srcContent) with
    | error e =>
      refine ⟨by simp [SumEffect.isGen], by simp, ?_⟩
      intro r hr
      simp at hr
    | ok t =>
      dsimp only
      obtain ⟨hall, hle, hok⟩ := ih (jsReplaceFirstStr note f0 t)
      cases hsl : summarizeLoop srcContent items gen rest (jsReplaceFirstStr note f0 t) with
      | mk effs res =>
        rw [hsl] at hall hle hok
        refine ⟨by simp [SumEffect.isGen, hall], by simpa using hle, ?_⟩
        intro r hr
        simp only at hr
        have := hok r hr
        simpa using this

/-- On a generation failure the loop stops at the failing match: the
effect trace is exactly one generation call per match up to and
including the failing one, in order, and no call is issued for any
later match. -/
theorem summarizeLoop_error_spec (srcContent : String) (items : List SummaryPromptItem)
    (gen : String → Except String String) (ms : List (String × String)) (note : String)
    (e : String) (he : (summarizeLoop srcContent items gen ms note).2 = Except.error e) :
    ∃ k, k < ms.length ∧
      (summarizeLoop srcContent items gen ms note).1 =
        (ms.take (k + 1)).map
          (fun m => SumEffect.genCall (promptMapGet items m.2 ++ "\n\n---\n\n" ++ srcContent)) := by
  induction ms generalizing note with
  | nil => simp [summarizeLoop] at he
  | cons m rest ih =>
    obtain ⟨f0, k0⟩ := m
    simp only [summarizeLoop] at he ⊢
    cases hg : gen (promptMapGet items k0 ++ "\n\n---\n\n" ++ srcContent) with
    | error e2 =>
      rw [hg] at he
      refine ⟨0, by simp, ?_⟩
      simp
    | ok t =>
      rw [hg] at he
      dsimp only at he ⊢
      obtain ⟨k, hk, heffs⟩ := ih (jsReplaceFirstStr note f0 t) he
      refine ⟨k + 1, by simpa using Nat.succ_lt_succ hk, ?_⟩
      rw [List.take_succ_cons, List.map_cons, heffs]

/-- C7: write discipline of summarization.  On any generation failure the
invocation performs no file modification and the effect trace is exactly
one generation call per matched key up to and including the failing key,
in order, so the remaining matched keys are not processed; on completion
the effect trace is exactly the generation calls, one per matched key,
followed by a single modification of the target file. -/
theorem c7_write_discipline (noteContent srcContent : String)
    (items : List SummaryPromptItem) (gen : String → Except String String) :
    (∀ e, (processPdfAndSummarize noteContent srcContent items gen).2 =
          SumOutcome.apiError e →
        (processPdfAndSummarize noteContent srcContent items gen).1.filter
            SumEffect.isModify = [] ∧
          ∃ k, k < matchedKeyCount noteContent items ∧
            (processPdfAndSummarize noteContent srcContent items gen).1 =
              ((validMatchesOf noteContent items).take (k + 1)).map
                (fun m => SumEffect.genCall
                  (promptMapGet items m.2 ++ "\n\n---\n\n" ++ srcContent))) ∧
      (∀ n, (processPdfAndSummarize noteContent srcContent items gen).2 =
          SumOutcome.completed n →
        ∃ gens final, (processPdfAndSummarize noteContent srcContent items gen).1 =
            gens ++ [SumEffect.modifyNote final] ∧
          gens.all SumEffect.isGen = true ∧
          gens.length = matchedKeyCount noteContent items) := by
  unfold processPdfAndSummarize
  by_cases hempty : (keysToProcessOf noteContent items).isEmpty = true
  · rw [if_pos hempty]
    constructor
    · intro e he
      simp at he
    · intro n hn
      simp at hn
  · rw [if_neg hempty]
    obtain ⟨hall, hle, hok⟩ :=
      summarizeLoop_spec srcContent items gen (validMatchesOf noteContent items) noteContent
    cases hsl : summarizeLoop srcContent items gen (validMatchesOf noteContent items)
        noteContent with
    | mk effs res =>
      rw [hsl] at hall hle hok
      cases res with
      | error e =>
        constructor
        · intro e2 he2
          constructor
          · rw [List.filter_eq_nil_iff]
            intro x hx
            have hg := List.all_eq_true.mp hall x hx
            cases x with
            | genCall p => simp [SumEffect.isModify]
            | modifyNote c => simp [SumEffect.isGen] at hg
          · obtain ⟨k, hk, heffs⟩ := summarizeLoop_error_spec srcContent items gen
              (validMatchesOf noteContent items) noteContent e (by rw [hsl])
            rw [hsl] at heffs
            refine ⟨k, ?_, heffs⟩
            rw [← validMatchesOf_length noteContent items]
            exact hk
        · intro n hn
          simp at hn
      | ok finalNote =>
        constructor
        · intro e he
          simp at he
        · intro n hn
          refine ⟨effs, finalNote, rfl, hall, ?_⟩
          rw [hok finalNote rfl]
          exact validMatchesOf_length noteContent items

/-- Witness for C7 at a concrete note, one configured matching key and an
always-succeeding generator. -/
theorem c7_witness :
    ((processPdfAndSummarize "<!-- k -->" "src" [⟨"k", "p"⟩] (fun _ => .ok "S")).2 =
        SumOutcome.completed 1) ∧
      (∃ gens final, (processPdfAndSummarize "<!-- k -->" "src" [⟨"k", "p"⟩]
            (fun _ => .ok "S")).1 = gens ++ [SumEffect.modifyNote final] ∧
        gens.all SumEffect.isGen = true ∧
        gens.length = matchedKeyCount "<!-- k -->" [⟨"k", "p"⟩]) :=
  ⟨by decide,
    (c7_write_discipline "<!-- k -->" "src" [⟨"k", "p"⟩] (fun _ => .ok "S")).2 1 (by decide)⟩

/-- Replacing a known element of a list shifts the count of a predicate
by the difference of the two membership tests. -/
theorem countP_set_of_getElem (l : List WStatus) (i : Nat) (w v : WStatus)
    (h : l[i]? = some w) (p : WStatus → Bool) :
    (l.set i v).countP p + (if p w then 1 else 0) =
      l.countP p + (if p v then 1 else 0) := by
  induction l generalizing i with
  | nil => simp at h
  | cons x xs ih =>
    cases i with
    | zero =>
      rw [List.getElem?_cons_zero] at h
      have hw : x = w := by
        injection h
      subst hw
      simp only [List.set, List.countP_cons]
      cases hc : p v <;> cases hd : p x <;> simp [hc, hd]
    | succ j =>
      rw [List.getElem?_cons_succ] at h
      have hrec := ih j h
      simp only [List.set, List.countP_cons]
      omega

/-- The invariant holds in the initial batch state. -/
theorem batchInv_init (docs : List String) (limit : Nat) :
    BatchInv docs limit (initBatch docs limit) := by
  refine ⟨rfl, by simp [initBatch], ?_, ?_⟩
  · simp [initBatch, List.countP_replicate, WStatus.isBusy]
  · intro hd
    simp [initBatch, List.mem_replicate] at hd

/-- The invariant is preserved by every step of the batch semantics. -/
theorem batchInv_step (docs : List String) (limit : Nat) (s s2 : BatchState)
    (hs : BatchInv docs limit s) (hstep : BatchStep s s2) : BatchInv docs limit s2 := by
  obtain ⟨hq, hlen, hcnt, hdone⟩ := hs
  cases hstep with
  | pop i d rest hqd hw =>
    refine ⟨?_, ?_, ?_, ?_⟩
    · rw [List.append_assoc, List.singleton_append, ← hqd]
      exact hq
    · simp [List.length_set, hlen]
    · have hcs := countP_set_of_getElem s.workers i WStatus.idle (WStatus.busy d) hw
        WStatus.isBusy
      simp only [WStatus.isBusy, if_neg, if_pos] at hcs
      simp only [List.length_append, List.length_cons, List.length_nil]
      simp at hcs
      omega
    · intro hd2
      rcases List.mem_or_eq_of_mem_set hd2 with hmem | heq
      · have hz := hdone hmem
        rw [hqd] at hz
        simp at hz
      · simp at heq
  | exitLoop i hq0 hw =>
    refine ⟨hq, by simp [List.length_set, hlen], ?_, fun _ => hq0⟩
    have hcs := countP_set_of_getElem s.workers i WStatus.idle WStatus.done hw WStatus.isBusy
    simp [WStatus.isBusy] at hcs
    dsimp only
    omega
  | finishOk i d hw =>
    refine ⟨hq, by simp [List.length_set, hlen], ?_, ?_⟩
    · have hcs := countP_set_of_getElem s.workers i (WStatus.busy d) WStatus.idle hw
        WStatus.isBusy
      simp [WStatus.isBusy] at hcs
      dsimp only
      omega
    · intro hd2
      rcases List.mem_or_eq_of_mem_set hd2 with hmem | heq
      · exact hdone hmem
      · simp at heq
  | finishFail i d hw =>
    refine ⟨hq, by simp [List.length_set, hlen], ?_, ?_⟩
    · have hcs := countP_set_of_getElem s.workers i (WStatus.busy d) WStatus.idle hw
        WStatus.isBusy
      simp [WStatus.isBusy] at hcs
      dsimp only
      omega
    · intro hd2
      rcases List.mem_or_eq_of_mem_set hd2 with hmem | heq
      · exact hdone hmem
      · simp at heq

/-- The invariant holds in every reachable batch state. -/
theorem batchInv_reaches (docs : List String) (limit : Nat) (s : BatchState)
    (h : BatchReaches (initBatch docs limit) s) : BatchInv docs limit s := by
  induction h with
  | refl => exact batchInv_init docs limit
  | tail hab hbc ih => exact batchInv_step docs limit _ _ ih hbc

/-- C5: when a batch run over the selected documents with at least one
worker reaches a state where all workers have exited, the success and
failure counters sum to the number of documents, and the documents popped
for ingestion are exactly the selected documents, each ingested once. -/
theorem c5_batch_counts (docs : List String) (limit : Nat) (s : BatchState)
    (hlim : 1 ≤ limit) (hr : BatchReaches (initBatch docs limit) s)
    (hdone : ∀ w ∈ s.workers, w = WStatus.done) :
    s.success + s.failure = docs.length ∧ s.popped = docs := by
  obtain ⟨hq, hlen, hcnt, hqdone⟩ := batchInv_reaches docs limit s hr
  have hne : s.workers ≠ [] := by
    intro h0
    rw [h0] at hlen
    simp at hlen
    omega
  obtain ⟨w, hw⟩ := List.exists_mem_of_ne_nil s.workers hne
  rw [hdone w hw] at hw
  have hqe : s.queue = [] := hqdone hw
  have hbusy : s.workers.countP WStatus.isBusy = 0 := by
    rw [List.countP_eq_zero]
    intro a ha
    rw [hdone a ha]
    simp [WStatus.isBusy]
  rw [hqe, List.append_nil] at hq
  refine ⟨?_, hq⟩
  rw [hbusy, hq] at hcnt
  omega

/-- Witness for C5: one worker processes a one-document batch to
completion through pop, success and exit steps. -/
theorem c5_batch_witness :
    (1 ≤ 1 ∧ (∀ w ∈ [WStatus.done], w = WStatus.done)) ∧
      ((⟨[], 1, 0, [WStatus.done], ["d"]⟩ : BatchState).success +
          (⟨[], 1, 0, [WStatus.done], ["d"]⟩ : BatchState).failure = (["d"] : List String).length ∧
        (⟨[], 1, 0, [WStatus.done], ["d"]⟩ : BatchState).popped = ["d"]) := by
  have h1 : BatchStep (initBatch ["d"] 1) ⟨[], 0, 0, [WStatus.busy "d"], ["d"]⟩ :=
    BatchStep.pop (initBatch ["d"] 1) 0 "d" [] rfl rfl
  have h2 : BatchStep ⟨[], 0, 0, [WStatus.busy "d"], ["d"]⟩
      ⟨[], 1, 0, [WStatus.idle], ["d"]⟩ :=
    BatchStep.finishOk ⟨[], 0, 0, [WStatus.busy "d"], ["d"]⟩ 0 "d" rfl
  have h3 : BatchStep ⟨[], 1, 0, [WStatus.idle], ["d"]⟩
      ⟨[], 1, 0, [WStatus.done], ["d"]⟩ :=
    BatchStep.exitLoop ⟨[], 1, 0, [WStatus.idle], ["d"]⟩ 0 rfl rfl
  have hr : BatchReaches (initBatch ["d"] 1) ⟨[], 1, 0, [WStatus.done], ["d"]⟩ :=
    Relation.ReflTransGen.tail
      (Relation.ReflTransGen.tail (Relation.ReflTransGen.tail Relation.ReflTransGen.refl h1) h2)
      h3
  exact ⟨⟨le_refl 1, by decide⟩,
    c5_batch_counts ["d"] 1 ⟨[], 1, 0, [WStatus.done], ["d"]⟩ (le_refl 1) hr (by decide)⟩

end PdfMistral
